import Mathlib

/-!
Shallow embedding of the StrellerMinds certificate contract
(`contracts/certificate/src/lib_backup.rs`) together with the multisig
request machine and prerequisite graph described by the design document.

Conventions:
* Soroban `Address` and `BytesN<32>` identifiers are modelled as `Nat`;
  `u64` ledger timestamps are `Nat`; Soroban `String` is Lean `String`.
* `env.ledger().timestamp()` is passed explicitly as a `now : Nat` argument.
* `env.storage()` is an explicit `ContractState` record threaded through
  every operation; each contract entry point returns
  `Except CertificateError Unit × ContractState` (the Rust `Result` plus the
  post-state, with the pre-state returned unchanged on every early `Err`,
  matching the Rust control flow where no write precedes the error returns).
* `require_auth` is host-level authentication (a trap, not a contract
  `Result`); per the design document the caller identity is assumed already
  verified, so it is not modelled as a failure path.
* `ReentrancyLock` is a scoped guard with no effect in this sequential model.
-/

/-- Certificate status, from `types::CertificateStatus` as used by
`lib_backup.rs` and the design document (§3). -/
inductive CertificateStatus where
  | Active
  | Revoked
  | Expired
  | Transferred
deriving DecidableEq, Repr

/-- Permissions, from the `Permission` enum dispatch in `has_permission`
(discriminants 0..3 in `lib_backup.rs`). -/
inductive Permission where
  | IssueCertificate
  | RevokeCertificate
  | TransferCertificate
  | UpdateCertificateMetadata
deriving DecidableEq, Repr

/-- Contract error codes, from `errors::CertificateError` as used by
`lib_backup.rs` and the error taxonomy of the design document (§7). -/
inductive CertificateError where
  | AlreadyInitialized
  | NotInitialized
  | InitializationFailed
  | InvalidRole
  | Unauthorized
  | CertificateAlreadyExists
  | InvalidMetadata
  | CycleDetected
  | InvalidPrerequisite
  | NotAuthorizedSigner
  | AlreadySigned
  | RequestNotPending
  | RequestExpired
  | InsufficientSignatures
  | AlreadyExecuted
deriving DecidableEq, Repr

/-- Modelled from the spec: `MetadataUpdateEntry` (the `types` module is not
in the sources); §3 describes an append-only audit entry for a metadata
update, carrying the updater, the new URI and a timestamp. -/
structure MetadataUpdateEntry where
  updater : Nat
  new_uri : String
  timestamp : Nat
deriving DecidableEq, Repr

/-- Certificate metadata, with exactly the fields written by
`mint_certificate` in `lib_backup.rs` (lines 165-179). -/
structure CertificateMetadata where
  course_id : String
  student_id : Nat
  instructor_id : Nat
  issue_date : Nat
  metadata_uri : String
  token_id : Nat
  title : String
  description : String
  status : CertificateStatus
  expiry_date : Nat
  original_expiry_date : Nat
  renewal_count : Nat
  last_renewed_date : Nat
deriving DecidableEq, Repr

/-- Packed storage record, from `PackedCertificateData` as built in
`mint_certificate` (`lib_backup.rs` lines 180-184): metadata, owner and the
metadata-update history. -/
structure PackedCertificateData where
  metadata : CertificateMetadata
  owner : Nat
  history : List MetadataUpdateEntry
deriving DecidableEq, Repr

/-- Mint parameters, from `MintCertificateParams` as consumed by
`mint_certificate` in `lib_backup.rs`. -/
structure MintCertificateParams where
  certificate_id : Nat
  course_id : String
  student : Nat
  title : String
  description : String
  metadata_uri : String
  expiry_date : Nat
deriving DecidableEq, Repr

/-- Association-list lookup, modelling keyed persistent storage reads. -/
def getA {α : Type} (m : List (Nat × α)) (k : Nat) : Option α :=
  match m with
  | [] => none
  | (k', v) :: t => if k = k' then some v else getA t k

/-- Association-list update, modelling keyed persistent storage writes. -/
def setA {α : Type} (m : List (Nat × α)) (k : Nat) (v : α) : List (Nat × α) :=
  match m with
  | [] => [(k, v)]
  | (k', v') :: t => if k = k' then (k, v) :: t else (k', v') :: setA t k v

/-- The contract's persistent state: the `CertificateStorage` keys used by
`lib_backup.rs` (admin, initialized flag, certificates, the per-user and
per-instructor ownership indexes) plus the shared RBAC tables. The shared
`access_control` module is not in the sources; per the spec (§6) it exposes
`require_permission(caller, permission)`, modelled by a permission table. -/
structure ContractState where
  initialized : Bool
  admin : Option Nat
  acAdmin : Option Nat
  roles : List (Nat × Nat)
  perms : List (Nat × List Permission)
  certificates : List (Nat × PackedCertificateData)
  user_certs : List (Nat × List Nat)
  instructor_certs : List (Nat × List Nat)
deriving DecidableEq, Repr

/-- Modelled from the spec (§6): the access-control collaborator's
`require_permission(caller, permission) -> Result<(), Unauthorized>`,
reading the RBAC permission table. -/
def require_permission (st : ContractState) (user : Nat) (p : Permission) :
    Except CertificateError Unit :=
  if p ∈ ((getA st.perms user).getD []) then Except.ok ()
  else Except.error CertificateError.Unauthorized

/-- Modelled from the spec: `MetadataValidator::validate_mint_params` (the
`validation` module is not in the sources). The creation invariant of §3 is
`expiry_date >= issue_date`, where the issue date is the ledger timestamp at
mint time, so the validator rejects an expiry before the current time. -/
def validate_mint_params (now : Nat) (params : MintCertificateParams) :
    Except CertificateError Unit :=
  if now ≤ params.expiry_date then Except.ok ()
  else Except.error CertificateError.InvalidMetadata

/-- Modelled from the spec (§9): the shared RBAC bootstrap
`AccessControl::initialize` (module not in the sources) records the admin
identity once; the identity is set once at initialization. -/
def accessControlInit (st : ContractState) (admin : Nat) :
    Except CertificateError ContractState :=
  match st.acAdmin with
  | some _ => Except.error CertificateError.Unauthorized
  | none => Except.ok { st with acAdmin := some admin }

/-- Source `Certificate::initialize` from `lib_backup.rs` (lines 69-90): reject a
second initialization, bootstrap the RBAC system, store the admin address
and set the initialized flag. -/
def contractInit (st : ContractState) (admin : Nat) :
    Except CertificateError Unit × ContractState :=
  if st.initialized then (Except.error CertificateError.AlreadyInitialized, st)
  else
    match accessControlInit st admin with
    | Except.error _ => (Except.error CertificateError.InitializationFailed, st)
    | Except.ok st1 =>
        (Except.ok (), { st1 with admin := some admin, initialized := true })

/-- Source `Certificate::get_admin` from `lib_backup.rs` (lines 92-98). The storage
getter unwraps the stored address; the default is never reached after a
successful initialization. -/
def get_admin (st : ContractState) : Except CertificateError Nat :=
  if st.initialized = false then Except.error CertificateError.NotInitialized
  else Except.ok (st.admin.getD 0)

/-- Modelled from the spec: the shared `roles::RoleLevel::from_u32` (module
not in the sources); role levels form a small fixed set, modelled as the
valid range 1..=5. -/
def roleLevelFromU32 (n : Nat) : Option Nat :=
  if 1 ≤ n ∧ n ≤ 5 then some n else none

/-- Modelled from the spec: the permission set a role level grants (the
shared `roles` module is not in the sources); level 1 (student) grants no
certificate permission, higher levels grant the certificate permissions. -/
def permsOfLevel (level : Nat) : List Permission :=
  if level ≤ 1 then []
  else [Permission.IssueCertificate, Permission.RevokeCertificate,
        Permission.TransferCertificate, Permission.UpdateCertificateMetadata]

/-- Source `Certificate::grant_role` from `lib_backup.rs` (lines 100-113): convert
the raw level and delegate to the (spec-modelled) RBAC grant, which updates
the role and permission tables only. -/
def grant_role (st : ContractState) (user : Nat) (role_level : Nat) :
    Except CertificateError Unit × ContractState :=
  match roleLevelFromU32 role_level with
  | none => (Except.error CertificateError.InvalidRole, st)
  | some level =>
      (Except.ok (),
        { st with roles := setA st.roles user level
                  perms := setA st.perms user (permsOfLevel level) })

/-- Source `Certificate::revoke_role` from `lib_backup.rs` (lines 115-124):
delegate to the (spec-modelled) RBAC revoke, which clears the user's entry
in the role and permission tables. -/
def revoke_role (st : ContractState) (user : Nat) :
    Except CertificateError Unit × ContractState :=
  (Except.ok (),
    { st with roles := setA st.roles user 0
              perms := setA st.perms user [] })

/-- Source `Certificate::mint_certificate` from `lib_backup.rs` (lines 143-196):
permission check, metadata validation, duplicate check, then store the
packed record and track ownership in both indexes. -/
def mint_certificate (now : Nat) (st : ContractState) (issuer : Nat)
    (params : MintCertificateParams) :
    Except CertificateError Unit × ContractState :=
  match require_permission st issuer Permission.IssueCertificate with
  | Except.error _ => (Except.error CertificateError.Unauthorized, st)
  | Except.ok _ =>
    match validate_mint_params now params with
    | Except.error e => (Except.error e, st)
    | Except.ok _ =>
      if (getA st.certificates params.certificate_id).isSome then
        (Except.error CertificateError.CertificateAlreadyExists, st)
      else
        let metadata : CertificateMetadata :=
          { course_id := params.course_id
            student_id := params.student
            instructor_id := issuer
            issue_date := now
            metadata_uri := params.metadata_uri
            token_id := params.certificate_id
            title := params.title
            description := params.description
            status := CertificateStatus.Active
            expiry_date := params.expiry_date
            original_expiry_date := params.expiry_date
            renewal_count := 0
            last_renewed_date := 0 }
        let packed : PackedCertificateData :=
          { metadata := metadata, owner := params.student, history := [] }
        let st1 := { st with
          certificates := setA st.certificates params.certificate_id packed }
        let st2 := { st1 with
          user_certs := setA st1.user_certs params.student
            (((getA st1.user_certs params.student).getD []) ++ [params.certificate_id]) }
        let st3 := { st2 with
          instructor_certs := setA st2.instructor_certs issuer
            (((getA st2.instructor_certs issuer).getD []) ++ [params.certificate_id]) }
        (Except.ok (), st3)

/-- Source `Certificate::revoke_certificate` from `lib_backup.rs` (lines 199-206):
a placeholder that returns `Ok(())` without touching storage. -/
def revoke_certificate (st : ContractState) (revoker : Nat)
    (certificate_id : Nat) : Except CertificateError Unit × ContractState :=
  (Except.ok (), st)

/-- Source `Certificate::transfer_certificate` from `lib_backup.rs` (lines
208-216): a placeholder that returns `Ok(())` without touching storage. -/
def transfer_certificate (st : ContractState) (src dst : Nat)
    (certificate_id : Nat) : Except CertificateError Unit × ContractState :=
  (Except.ok (), st)

/-- Source `Certificate::update_certificate_metadata` from `lib_backup.rs` (lines
218-226): a placeholder that returns `Ok(())` without touching storage. -/
def update_certificate_metadata (st : ContractState) (updater : Nat)
    (certificate_id : Nat) (new_uri : String) :
    Except CertificateError Unit × ContractState :=
  (Except.ok (), st)

/-- Source `Certificate::mint_certificates_batch` from `lib_backup.rs` (lines
263-270): a placeholder that returns `Ok(())` without touching storage. -/
def mint_certificates_batch (st : ContractState) (issuer : Nat)
    (params_list : List MintCertificateParams) :
    Except CertificateError Unit × ContractState :=
  (Except.ok (), st)

/-- Source `Certificate::get_certificate` from `lib_backup.rs` (lines 228-230). -/
def get_certificate (st : ContractState) (certificate_id : Nat) :
    Option CertificateMetadata :=
  (getA st.certificates certificate_id).map (fun packed => packed.metadata)

/-- Source `Certificate::get_user_certificates` from `lib_backup.rs` (232-234). -/
def get_user_certificates (st : ContractState) (user : Nat) : List Nat :=
  (getA st.user_certs user).getD []

/-- Source `Certificate::get_instructor_certificates` (`lib_backup.rs` 236-238). -/
def get_instructor_certificates (st : ContractState) (instructor : Nat) :
    List Nat :=
  (getA st.instructor_certs instructor).getD []

/-- Source `Certificate::get_metadata_history` from `lib_backup.rs` (240-242); the
storage getter returns the packed record's history, empty when absent. -/
def get_metadata_history (st : ContractState) (certificate_id : Nat) :
    List MetadataUpdateEntry :=
  ((getA st.certificates certificate_id).map (fun p => p.history)).getD []

/-- Source `Certificate::is_certificate_expired` from `lib_backup.rs` (244-251):
true exactly when a record exists and the current time is strictly past its
expiry; `false` for a missing record. The state is returned to show the
read mutates nothing. -/
def is_certificate_expired (now : Nat) (st : ContractState)
    (certificate_id : Nat) : Bool × ContractState :=
  match getA st.certificates certificate_id with
  | some packed => (decide (packed.metadata.expiry_date < now), st)
  | none => (false, st)

/-- Source `Certificate::is_valid_certificate` from `lib_backup.rs` (253-260):
true exactly when a record exists, its status is `Active` and the current
time is at most its expiry. The state is returned to show the read mutates
nothing. -/
def is_valid_certificate (now : Nat) (st : ContractState)
    (certificate_id : Nat) : Bool × ContractState :=
  match getA st.certificates certificate_id with
  | some packed =>
      (decide (packed.metadata.status = CertificateStatus.Active) &&
        decide (now ≤ packed.metadata.expiry_date), st)
  | none => (false, st)

/-- Multisig request status, from `MultiSigCertificateRequest` in the design
document (§3): `Pending`, `Approved`, `Executed`, `Rejected`, `Expired`. -/
inductive RequestStatus where
  | Pending
  | Approved
  | Executed
  | Rejected
  | Expired
deriving DecidableEq, Repr

/-- Modelled from the spec (§3, §4.2): `MultiSigCertificateRequest` (the
`multisig` module is not in the sources) — the signed-by set (membership
unique), status, deadline, and the threshold and eligible-signer set frozen
at proposal time. -/
structure MultiSigCertificateRequest where
  request_id : Nat
  proposer : Nat
  signed_by : List Nat
  status : RequestStatus
  created_at : Nat
  deadline : Nat
  threshold : Nat
  eligible : List Nat
deriving DecidableEq, Repr

/-- Modelled from the spec (§4.2 `sign`): reject a non-eligible signer with
`NotAuthorizedSigner`, a duplicate signer with `AlreadySigned`, a
non-`Pending` request with `RequestNotPending`, and a request past its
deadline with `RequestExpired` (transitioning it to `Expired` as a side
effect); otherwise append the signer and move to `Approved` once the
signed-by count reaches the threshold. -/
def msSign (now signer : Nat) (r : MultiSigCertificateRequest) :
    Except CertificateError Unit × MultiSigCertificateRequest :=
  if signer ∉ r.eligible then
    (Except.error CertificateError.NotAuthorizedSigner, r)
  else if signer ∈ r.signed_by then
    (Except.error CertificateError.AlreadySigned, r)
  else if r.status ≠ RequestStatus.Pending then
    (Except.error CertificateError.RequestNotPending, r)
  else if r.deadline < now then
    (Except.error CertificateError.RequestExpired,
      { r with status := RequestStatus.Expired })
  else
    let sb := r.signed_by ++ [signer]
    (Except.ok (),
      { r with signed_by := sb
               status := if r.threshold ≤ sb.length then RequestStatus.Approved
                         else RequestStatus.Pending })

/-- Modelled from the spec (§4.2 `execute`): requires status `Approved`;
`AlreadyExecuted` for an `Executed` request, `InsufficientSignatures` while
`Pending` (expiring it lazily past the deadline), `RequestExpired` past the
deadline, `RequestNotPending` for a `Rejected` one; on success transitions
to `Executed` as one atomic unit. -/
def msExecute (now : Nat) (r : MultiSigCertificateRequest) :
    Except CertificateError Unit × MultiSigCertificateRequest :=
  match r.status with
  | RequestStatus.Executed => (Except.error CertificateError.AlreadyExecuted, r)
  | RequestStatus.Pending =>
      if r.deadline < now then
        (Except.error CertificateError.RequestExpired,
          { r with status := RequestStatus.Expired })
      else (Except.error CertificateError.InsufficientSignatures, r)
  | RequestStatus.Rejected => (Except.error CertificateError.RequestNotPending, r)
  | RequestStatus.Expired => (Except.error CertificateError.RequestExpired, r)
  | RequestStatus.Approved =>
      if r.deadline < now then
        (Except.error CertificateError.RequestExpired, r)
      else (Except.ok (), { r with status := RequestStatus.Executed })

/-- Modelled from the spec (§4.2): rejection by an authorized party applies
to a pending request. -/
def msReject (r : MultiSigCertificateRequest) :
    Except CertificateError Unit × MultiSigCertificateRequest :=
  if r.status = RequestStatus.Pending then
    (Except.ok (), { r with status := RequestStatus.Rejected })
  else (Except.error CertificateError.RequestNotPending, r)

/-- Modelled from the spec (§4.2 `expire_stale`): mark a pending request
past its deadline as `Expired`; idempotent housekeeping. -/
def msExpireStale (now : Nat) (r : MultiSigCertificateRequest) :
    MultiSigCertificateRequest :=
  if r.status = RequestStatus.Pending ∧ r.deadline < now then
    { r with status := RequestStatus.Expired }
  else r

/-- One externally observable multisig event on a single request. -/
inductive MsEvent where
  | sgn (now signer : Nat)
  | exec (now : Nat)
  | rej
  | stale (now : Nat)
deriving DecidableEq, Repr

/-- The state-transition function of one request: the post-state of the
corresponding operation (the error, if any, is surfaced to the caller). -/
def msStep (e : MsEvent) (r : MultiSigCertificateRequest) :
    MultiSigCertificateRequest :=
  match e with
  | MsEvent.sgn now signer => (msSign now signer r).2
  | MsEvent.exec now => (msExecute now r).2
  | MsEvent.rej => (msReject r).2
  | MsEvent.stale now => msExpireStale now r

/-- A trace of events applied in order to a request. -/
def msRun (tr : List MsEvent) (r : MultiSigCertificateRequest) :
    MultiSigCertificateRequest :=
  tr.foldl (fun acc e => msStep e acc) r

/-- A freshly proposed request (§4.2 `propose`): status `Pending`, nobody
has signed. -/
def msProposed (r : MultiSigCertificateRequest) : Prop :=
  r.status = RequestStatus.Pending ∧ r.signed_by = []

/-- Source `CoursePrerequisite` from the design document (§3): a directed edge
`course → required_course` with a `mandatory` flag (the `prerequisites`
module is not in the sources; course identifiers are modelled as `Nat`). -/
structure CoursePrerequisite where
  course : Nat
  required_course : Nat
  mandatory : Bool
deriving DecidableEq, Repr

/-- The prerequisite graph: the stored set of edges. -/
abbrev PrereqGraph : Type := List CoursePrerequisite

/-- The direct successors of `a` in the stored graph: the required courses
of every edge leaving `a`. -/
def succs (g : PrereqGraph) (a : Nat) : List Nat :=
  (g.filter (fun e => e.course == a)).map (fun e => e.required_course)

/-- The edge relation of the stored graph. -/
def edgeRel (g : PrereqGraph) (a b : Nat) : Prop :=
  b ∈ succs g a

/-- One expansion step of the traversal frontier: keep the visited nodes
and add every direct successor, deduplicated. -/
def stepSet (g : PrereqGraph) (s : List Nat) : List Nat :=
  (s ++ s.flatMap (succs g)).dedup

/-- The set of nodes the traversal has reached from `a` after `n`
expansion steps. -/
def reachList (g : PrereqGraph) (a : Nat) : Nat → List Nat
  | 0 => [a]
  | n + 1 => stepSet g (reachList g a n)

/-- Modelled from the spec (§4.1): the depth-first search that
`register_prerequisite` runs from `required_course` looking for a path back
to `course`; the traversal saturates within `g.length + 1` expansions since
every visited node other than the start is the target of some edge. -/
def reachableB (g : PrereqGraph) (a b : Nat) : Bool :=
  decide (b ∈ reachList g a (g.length + 1))

/-- Modelled from the spec (§4.1 `register_prerequisite`): reject a
self-loop with `InvalidPrerequisite`; reject an edge whose insertion would
close a cycle (a stored path from `required_course` back to `course`) with
`CycleDetected`, leaving the graph unchanged; otherwise append the edge. -/
def register_prerequisite (g : PrereqGraph) (course required_course : Nat)
    (mandatory : Bool) : Except CertificateError Unit × PrereqGraph :=
  if course = required_course then
    (Except.error CertificateError.InvalidPrerequisite, g)
  else if reachableB g required_course course then
    (Except.error CertificateError.CycleDetected, g)
  else
    (Except.ok (),
      g ++ [{ course := course, required_course := required_course,
              mandatory := mandatory }])

theorem getA_setA {α : Type} (m : List (Nat × α)) (k k' : Nat) (v : α) :
    getA (setA m k v) k' = if k' = k then some v else getA m k' := by
  induction m with
  | nil =>
      by_cases h : k' = k <;> simp [setA, getA, h]
  | cons hd tl ih =>
      obtain ⟨k0, v0⟩ := hd
      by_cases hk : k = k0
      · subst hk
        by_cases h : k' = k <;> simp [setA, getA, h]
      · by_cases h : k' = k0
        · subst h
          have hne : ¬ k' = k := fun hh => hk hh.symm
          simp [setA, getA, hk, hne]
        · simp [setA, getA, hk, h, ih]

theorem mem_stepSet (g : PrereqGraph) (s : List Nat) (x : Nat) :
    x ∈ stepSet g s ↔ x ∈ s ∨ ∃ y ∈ s, x ∈ succs g y := by
  simp [stepSet, List.mem_dedup, List.mem_append, List.mem_flatMap]

theorem mem_stepSet_of_mem (g : PrereqGraph) (s : List Nat) (x : Nat)
    (h : x ∈ s) : x ∈ stepSet g s :=
  (mem_stepSet g s x).mpr (Or.inl h)

theorem reachList_sound (g : PrereqGraph) (a : Nat) (n : Nat) (x : Nat)
    (h : x ∈ reachList g a n) : Relation.ReflTransGen (edgeRel g) a x := by
  induction n generalizing x with
  | zero =>
      simp [reachList] at h
      subst h
      exact Relation.ReflTransGen.refl
  | succ n ih =>
      have h' : x ∈ stepSet g (reachList g a n) := h
      rw [mem_stepSet] at h'
      rcases h' with h' | ⟨y, hy, hxy⟩
      · exact ih x h'
      · exact Relation.ReflTransGen.tail (ih y hy) hxy

theorem stepSet_congr (g : PrereqGraph) (s t : List Nat)
    (h : ∀ x, x ∈ s ↔ x ∈ t) (x : Nat) :
    x ∈ stepSet g s ↔ x ∈ stepSet g t := by
  rw [mem_stepSet, mem_stepSet]
  constructor
  · rintro (hx | ⟨y, hy, hxy⟩)
    · exact Or.inl ((h x).mp hx)
    · exact Or.inr ⟨y, (h y).mp hy, hxy⟩
  · rintro (hx | ⟨y, hy, hxy⟩)
    · exact Or.inl ((h x).mpr hx)
    · exact Or.inr ⟨y, (h y).mpr hy, hxy⟩

theorem reachList_stable_add (g : PrereqGraph) (a n : Nat)
    (h : ∀ x, x ∈ reachList g a (n + 1) ↔ x ∈ reachList g a n) (k : Nat) :
    ∀ x, x ∈ reachList g a (n + k) ↔ x ∈ reachList g a n := by
  induction k with
  | zero => intro x; rfl
  | succ k ih =>
      intro x
      have hx : x ∈ reachList g a (n + (k + 1)) ↔
          x ∈ stepSet g (reachList g a (n + k)) := Iff.rfl
      rw [hx]
      exact (stepSet_congr g (reachList g a (n + k)) (reachList g a n) ih x).trans
        (h x)

theorem reachList_mono_le (g : PrereqGraph) (a : Nat) {m m' : Nat}
    (h : m ≤ m') (x : Nat) (hx : x ∈ reachList g a m) :
    x ∈ reachList g a m' := by
  induction m' with
  | zero =>
      have : m = 0 := Nat.le_zero.mp h
      subst this
      exact hx
  | succ m' ih =>
      rcases Nat.eq_or_lt_of_le h with h' | h'
      · subst h'
        exact hx
      · have := ih (Nat.lt_succ_iff.mp h')
        exact mem_stepSet_of_mem g _ x this

theorem succs_subset (g : PrereqGraph) (y x : Nat) (h : x ∈ succs g y) :
    x ∈ g.map (fun e => e.required_course) := by
  simp [succs, List.mem_map, List.mem_filter] at h ⊢
  obtain ⟨e, ⟨he, _⟩, hx⟩ := h
  exact ⟨e, he, hx⟩

theorem reachList_subset (g : PrereqGraph) (a n : Nat) (x : Nat)
    (h : x ∈ reachList g a n) :
    x ∈ a :: g.map (fun e => e.required_course) := by
  induction n generalizing x with
  | zero =>
      simp [reachList] at h
      simp [h]
  | succ n ih =>
      have h' : x ∈ stepSet g (reachList g a n) := h
      rw [mem_stepSet] at h'
      rcases h' with h' | ⟨y, hy, hxy⟩
      · exact ih x h'
      · exact List.mem_cons_of_mem _ (succs_subset g y x hxy)

theorem exists_stable_level (g : PrereqGraph) (a : Nat) :
    ∃ n, n ≤ g.length ∧
      ∀ x, (x ∈ reachList g a (n + 1) ↔ x ∈ reachList g a n) := by
  by_contra hc
  push_neg at hc
  have hstrict : ∀ n, n ≤ g.length →
      (reachList g a n).toFinset ⊂ (reachList g a (n + 1)).toFinset := by
    intro n hn
    obtain ⟨x, hx⟩ := hc n hn
    have himp : x ∈ reachList g a n → x ∈ reachList g a (n + 1) :=
      fun h => mem_stepSet_of_mem g _ x h
    have hsub : (reachList g a n).toFinset ⊆ (reachList g a (n + 1)).toFinset := by
      intro z hz
      rw [List.mem_toFinset] at hz ⊢
      exact mem_stepSet_of_mem g _ z hz
    rw [Finset.ssubset_iff_of_subset hsub]
    have hPQ : (x ∈ reachList g a (n + 1) ∧ x ∉ reachList g a n) := by
      rcases hx with h1 | h2
      · exact h1
      · exact absurd (himp h2.2) h2.1
    exact ⟨x, List.mem_toFinset.mpr hPQ.1, fun hz => hPQ.2 (List.mem_toFinset.mp hz)⟩
  have hcard : ∀ n, n ≤ g.length + 1 → n + 1 ≤ (reachList g a n).toFinset.card := by
    intro n
    induction n with
    | zero =>
        intro _
        simp [reachList]
    | succ n ih =>
        intro hn
        have h1 := ih (by omega)
        have h2 := Finset.card_lt_card (hstrict n (by omega))
        omega
  have hsubU : (reachList g a (g.length + 1)).toFinset ⊆
      (a :: g.map (fun e => e.required_course)).toFinset := by
    intro x hx
    rw [List.mem_toFinset] at hx ⊢
    exact reachList_subset g a _ x hx
  have hU : (reachList g a (g.length + 1)).toFinset.card ≤ g.length + 1 := by
    calc (reachList g a (g.length + 1)).toFinset.card
        ≤ (a :: g.map (fun e => e.required_course)).toFinset.card :=
          Finset.card_le_card hsubU
      _ ≤ (a :: g.map (fun e => e.required_course)).length :=
          List.toFinset_card_le _
      _ = g.length + 1 := by simp
  have := hcard (g.length + 1) le_rfl
  omega

theorem reachList_complete (g : PrereqGraph) (a b : Nat)
    (h : Relation.ReflTransGen (edgeRel g) a b) :
    b ∈ reachList g a (g.length + 1) := by
  obtain ⟨n, hn, hstab⟩ := exists_stable_level g a
  have hsome : ∃ m, b ∈ reachList g a m := by
    induction h with
    | refl => exact ⟨0, by simp [reachList]⟩
    | tail hab hedge ih =>
        obtain ⟨m, hm⟩ := ih
        refine ⟨m + 1, ?_⟩
        show _ ∈ stepSet g (reachList g a m)
        rw [mem_stepSet]
        exact Or.inr ⟨_, hm, hedge⟩
  obtain ⟨m, hm⟩ := hsome
  by_cases hmn : m ≤ g.length + 1
  · exact reachList_mono_le g a hmn b hm
  · have h1 : b ∈ reachList g a n := by
      have hk : m = n + (m - n) := by omega
      rw [hk] at hm
      exact (reachList_stable_add g a n hstab (m - n) b).mp hm
    exact reachList_mono_le g a (by omega) b h1

theorem reachableB_complete (g : PrereqGraph) (a b : Nat)
    (h : Relation.ReflTransGen (edgeRel g) a b) : reachableB g a b = true := by
  rw [reachableB, decide_eq_true_eq]
  exact reachList_complete g a b h

theorem reachableB_sound (g : PrereqGraph) (a b : Nat)
    (h : reachableB g a b = true) : Relation.ReflTransGen (edgeRel g) a b := by
  rw [reachableB, decide_eq_true_eq] at h
  exact reachList_sound g a _ b h

/-- The per-request invariant maintained by every multisig operation: the
signed-by set has unique membership, and an `Approved` or `Executed` request
gathered at least threshold-many signatures. -/
def msInv (r : MultiSigCertificateRequest) : Prop :=
  r.signed_by.Nodup ∧
  ((r.status = RequestStatus.Approved ∨ r.status = RequestStatus.Executed) →
    r.threshold ≤ r.signed_by.length)

theorem msRun_nil (r : MultiSigCertificateRequest) : msRun [] r = r := rfl

theorem msRun_cons (e : MsEvent) (tr : List MsEvent)
    (r : MultiSigCertificateRequest) :
    msRun (e :: tr) r = msRun tr (msStep e r) := rfl

theorem msStep_deadline (e : MsEvent) (r : MultiSigCertificateRequest) :
    (msStep e r).deadline = r.deadline := by
  obtain ⟨id, pr, sb, status, ca, dl, th, el⟩ := r
  cases e <;> cases status <;>
    simp only [msStep, msSign, msExecute, msReject, msExpireStale] <;>
    split_ifs <;> rfl

theorem msStep_threshold (e : MsEvent) (r : MultiSigCertificateRequest) :
    (msStep e r).threshold = r.threshold := by
  obtain ⟨id, pr, sb, status, ca, dl, th, el⟩ := r
  cases e <;> cases status <;>
    simp only [msStep, msSign, msExecute, msReject, msExpireStale] <;>
    split_ifs <;> rfl

theorem msRun_deadline (tr : List MsEvent) (r : MultiSigCertificateRequest) :
    (msRun tr r).deadline = r.deadline := by
  induction tr generalizing r with
  | nil => rfl
  | cons e tr ih => rw [msRun_cons, ih, msStep_deadline]

theorem msRun_threshold (tr : List MsEvent) (r : MultiSigCertificateRequest) :
    (msRun tr r).threshold = r.threshold := by
  induction tr generalizing r with
  | nil => rfl
  | cons e tr ih => rw [msRun_cons, ih, msStep_threshold]

theorem msSign_not_eligible (now signer : Nat) (r : MultiSigCertificateRequest)
    (h1 : signer ∉ r.eligible) :
    msSign now signer r = (Except.error CertificateError.NotAuthorizedSigner, r) := by
  simp [msSign, h1]

theorem msSign_already (now signer : Nat) (r : MultiSigCertificateRequest)
    (h1 : signer ∈ r.eligible) (h2 : signer ∈ r.signed_by) :
    msSign now signer r = (Except.error CertificateError.AlreadySigned, r) := by
  simp [msSign, h1, h2]

theorem msSign_not_pending (now signer : Nat) (r : MultiSigCertificateRequest)
    (h1 : signer ∈ r.eligible) (h2 : signer ∉ r.signed_by)
    (h3 : r.status ≠ RequestStatus.Pending) :
    msSign now signer r = (Except.error CertificateError.RequestNotPending, r) := by
  simp [msSign, h1, h2, h3]

theorem msSign_deadline_passed (now signer : Nat)
    (r : MultiSigCertificateRequest) (h1 : signer ∈ r.eligible)
    (h2 : signer ∉ r.signed_by) (h3 : r.status = RequestStatus.Pending)
    (h4 : r.deadline < now) :
    msSign now signer r = (Except.error CertificateError.RequestExpired,
      { r with status := RequestStatus.Expired }) := by
  simp [msSign, h1, h2, h3, h4]

theorem msSign_ok (now signer : Nat) (r : MultiSigCertificateRequest)
    (h1 : signer ∈ r.eligible) (h2 : signer ∉ r.signed_by)
    (h3 : r.status = RequestStatus.Pending) (h4 : ¬ r.deadline < now) :
    msSign now signer r =
      (Except.ok (),
        { r with signed_by := r.signed_by ++ [signer]
                 status := if r.threshold ≤ (r.signed_by ++ [signer]).length
                           then RequestStatus.Approved
                           else RequestStatus.Pending }) := by
  simp [msSign, h1, h2, h3, h4]

theorem msSign_inv (now signer : Nat) (r : MultiSigCertificateRequest)
    (h : msInv r) : msInv ((msSign now signer r).2) := by
  obtain ⟨hnd, hth⟩ := h
  by_cases h1 : signer ∈ r.eligible
  · by_cases h2 : signer ∈ r.signed_by
    · rw [msSign_already now signer r h1 h2]
      exact ⟨hnd, hth⟩
    · by_cases h3 : r.status = RequestStatus.Pending
      · by_cases h4 : r.deadline < now
        · rw [msSign_deadline_passed now signer r h1 h2 h3 h4]
          refine ⟨hnd, ?_⟩
          rintro (hc | hc) <;> simp at hc
        · rw [msSign_ok now signer r h1 h2 h3 h4]
          refine ⟨?_, ?_⟩
          · show (r.signed_by ++ [signer]).Nodup
            rw [List.nodup_append]
            refine ⟨hnd, List.nodup_singleton signer, ?_⟩
            intro x hx hx2
            rw [List.mem_singleton] at hx2
            subst hx2
            exact h2 hx
          · intro hst
            by_cases hlen : r.threshold ≤ (r.signed_by ++ [signer]).length
            · exact hlen
            · exfalso
              have hstat : ({ r with
                  signed_by := r.signed_by ++ [signer]
                  status := if r.threshold ≤ (r.signed_by ++ [signer]).length
                            then RequestStatus.Approved
                            else RequestStatus.Pending } :
                  MultiSigCertificateRequest).status = RequestStatus.Pending := by
                show (if r.threshold ≤ (r.signed_by ++ [signer]).length
                      then RequestStatus.Approved
                      else RequestStatus.Pending) = RequestStatus.Pending
                exact if_neg hlen
              rcases hst with hc | hc <;> rw [hstat] at hc <;> simp at hc
      · rw [msSign_not_pending now signer r h1 h2 h3]
        exact ⟨hnd, hth⟩
  · rw [msSign_not_eligible now signer r h1]
    exact ⟨hnd, hth⟩

theorem msExecute_inv (now : Nat) (r : MultiSigCertificateRequest)
    (h : msInv r) : msInv ((msExecute now r).2) := by
  obtain ⟨hnd, hth⟩ := h
  obtain ⟨id, pr, sb, status, ca, dl, th, el⟩ := r
  cases status with
  | Executed => exact ⟨hnd, hth⟩
  | Rejected => exact ⟨hnd, hth⟩
  | Expired => exact ⟨hnd, hth⟩
  | Pending =>
      simp only [msExecute]
      by_cases h1 : dl < now
      · rw [if_pos h1]
        refine ⟨hnd, ?_⟩
        rintro (hc | hc) <;> simp at hc
      · rw [if_neg h1]
        exact ⟨hnd, hth⟩
  | Approved =>
      simp only [msExecute]
      by_cases h1 : dl < now
      · rw [if_pos h1]
        exact ⟨hnd, hth⟩
      · rw [if_neg h1]
        refine ⟨hnd, ?_⟩
        intro _
        exact hth (Or.inl rfl)

theorem msReject_inv (r : MultiSigCertificateRequest)
    (h : msInv r) : msInv ((msReject r).2) := by
  obtain ⟨hnd, hth⟩ := h
  unfold msReject
  split_ifs with h1
  · refine ⟨hnd, ?_⟩
    rintro (hc | hc) <;> simp at hc
  · exact ⟨hnd, hth⟩

theorem msExpireStale_inv (now : Nat) (r : MultiSigCertificateRequest)
    (h : msInv r) : msInv (msExpireStale now r) := by
  obtain ⟨hnd, hth⟩ := h
  unfold msExpireStale
  split_ifs with h1
  · refine ⟨hnd, ?_⟩
    rintro (hc | hc) <;> simp at hc
  · exact ⟨hnd, hth⟩

theorem msStep_inv (e : MsEvent) (r : MultiSigCertificateRequest)
    (h : msInv r) : msInv (msStep e r) := by
  cases e with
  | sgn now signer => exact msSign_inv now signer r h
  | exec now => exact msExecute_inv now r h
  | rej => exact msReject_inv r h
  | stale now => exact msExpireStale_inv now r h

theorem msRun_inv (tr : List MsEvent) (r : MultiSigCertificateRequest)
    (h : msInv r) : msInv (msRun tr r) := by
  induction tr generalizing r with
  | nil => exact h
  | cons e tr ih => exact ih (msStep e r) (msStep_inv e r h)

theorem msStep_executed (e : MsEvent) (r : MultiSigCertificateRequest)
    (h : r.status = RequestStatus.Executed) : msStep e r = r := by
  obtain ⟨id, pr, sb, status, ca, dl, th, el⟩ := r
  simp only [] at h
  subst h
  cases e <;>
    simp only [msStep, msSign, msExecute, msReject, msExpireStale] <;>
    split_ifs <;> simp_all

theorem msRun_executed (tr : List MsEvent) (r : MultiSigCertificateRequest)
    (h : r.status = RequestStatus.Executed) : msRun tr r = r := by
  induction tr generalizing r with
  | nil => rfl
  | cons e tr ih => rw [msRun_cons, msStep_executed e r h, ih r h]

theorem msExecute_of_approved (n : Nat) (r : MultiSigCertificateRequest)
    (h : r.status = RequestStatus.Approved) (hd : n ≤ r.deadline) :
    msExecute n r = (Except.ok (), { r with status := RequestStatus.Executed }) := by
  obtain ⟨id, pr, sb, status, ca, dl, th, el⟩ := r
  simp only [] at h
  subst h
  have hd' : n ≤ dl := hd
  simp only [msExecute]
  split_ifs with h1
  · exact absurd hd' (by omega)
  · rfl

theorem msStep_to_executed (e : MsEvent) (r : MultiSigCertificateRequest)
    (h1 : r.status ≠ RequestStatus.Executed)
    (h2 : (msStep e r).status = RequestStatus.Executed) :
    ∃ n, e = MsEvent.exec n ∧ r.status = RequestStatus.Approved ∧
      n ≤ r.deadline := by
  cases e with
  | sgn now signer =>
      exfalso
      simp only [msStep] at h2
      by_cases ha : signer ∈ r.eligible
      · by_cases hb : signer ∈ r.signed_by
        · rw [msSign_already now signer r ha hb] at h2
          exact h1 h2
        · by_cases hc : r.status = RequestStatus.Pending
          · by_cases hd : r.deadline < now
            · rw [msSign_deadline_passed now signer r ha hb hc hd] at h2
              simp at h2
            · rw [msSign_ok now signer r ha hb hc hd] at h2
              simp only [] at h2
              split_ifs at h2 <;> simp at h2
          · rw [msSign_not_pending now signer r ha hb hc] at h2
            exact h1 h2
      · rw [msSign_not_eligible now signer r ha] at h2
        exact h1 h2
  | exec now =>
      obtain ⟨id, pr, sb, status, ca, dl, th, el⟩ := r
      cases status with
      | Executed => exact absurd rfl h1
      | Rejected => exact absurd h2 (by simp [msStep, msExecute])
      | Expired => exact absurd h2 (by simp [msStep, msExecute])
      | Pending =>
          exfalso
          simp only [msStep, msExecute] at h2
          split_ifs at h2 <;> simp_all
      | Approved =>
          refine ⟨now, rfl, rfl, ?_⟩
          simp only [msStep, msExecute] at h2
          by_cases hd : dl < now
          · rw [if_pos hd] at h2
            simp at h2
          · show now ≤ dl
            omega
  | rej =>
      exfalso
      simp only [msStep, msReject] at h2
      split_ifs at h2 <;> simp_all
  | stale now =>
      exfalso
      simp only [msStep, msExpireStale] at h2
      split_ifs at h2 <;> simp_all

theorem msRun_executed_iff (tr : List MsEvent) (r : MultiSigCertificateRequest)
    (h : r.status ≠ RequestStatus.Executed) :
    (msRun tr r).status = RequestStatus.Executed ↔
      ∃ pre n post, tr = pre ++ MsEvent.exec n :: post ∧
        (msRun pre r).status = RequestStatus.Approved ∧
        n ≤ (msRun pre r).deadline := by
  induction tr generalizing r with
  | nil =>
      constructor
      · intro hx
        exact absurd hx h
      · rintro ⟨pre, n, post, habs, -⟩
        rcases pre with _ | ⟨p, pre⟩ <;> simp at habs
  | cons e tr ih =>
      by_cases hs : (msStep e r).status = RequestStatus.Executed
      · obtain ⟨n, he, happ, hd⟩ := msStep_to_executed e r h hs
        have hL : (msRun (e :: tr) r).status = RequestStatus.Executed := by
          rw [msRun_cons, msRun_executed tr _ hs]
          exact hs
        constructor
        · intro _
          exact ⟨[], n, tr, by rw [he, List.nil_append], happ, hd⟩
        · intro _
          exact hL
      · rw [msRun_cons, ih (msStep e r) hs]
        constructor
        · rintro ⟨pre, n, post, htr, happ, hd⟩
          refine ⟨e :: pre, n, post, by rw [htr, List.cons_append], ?_, ?_⟩
          · rw [msRun_cons]
            exact happ
          · rw [msRun_cons]
            exact hd
        · rintro ⟨pre, n, post, htr, happ, hd⟩
          cases pre with
          | nil =>
              simp at htr
              obtain ⟨he, hpost⟩ := htr
              subst he
              rw [msRun_nil] at happ hd
              have : (msStep (MsEvent.exec n) r).status = RequestStatus.Executed := by
                show ((msExecute n r).2).status = RequestStatus.Executed
                rw [msExecute_of_approved n r happ hd]
              exact absurd this hs
          | cons p pre =>
              simp at htr
              obtain ⟨he, htr'⟩ := htr
              subst he
              rw [msRun_cons] at happ hd
              exact ⟨pre, n, post, htr', happ, hd⟩

/-- The public operations of the certificate contract
(`lib_backup.rs`), as state transformers for the frame/invariant
theorems; read-only entry points leave the state as is, matching their
bodies. -/
inductive COp where
  | opInit (admin : Nat)
  | opGetAdmin
  | opGrantRole (user level : Nat)
  | opRevokeRole (user : Nat)
  | opMint (now issuer : Nat) (params : MintCertificateParams)
  | opRevoke (revoker cid : Nat)
  | opTransfer (src dst cid : Nat)
  | opUpdateMetadata (updater cid : Nat) (uri : String)
  | opMintBatch (issuer : Nat) (ps : List MintCertificateParams)
  | opGetCertificate (cid : Nat)
  | opGetUserCerts (u : Nat)
  | opGetInstructorCerts (u : Nat)
  | opGetMetadataHistory (cid : Nat)
  | opIsExpired (now cid : Nat)
  | opIsValid (now cid : Nat)
deriving Repr

/-- The state transition of each public operation. -/
def applyCOp : COp → ContractState → ContractState
  | COp.opInit a, st => (contractInit st a).2
  | COp.opGetAdmin, st => st
  | COp.opGrantRole u l, st => (grant_role st u l).2
  | COp.opRevokeRole u, st => (revoke_role st u).2
  | COp.opMint now i p, st => (mint_certificate now st i p).2
  | COp.opRevoke a c, st => (revoke_certificate st a c).2
  | COp.opTransfer a b c, st => (transfer_certificate st a b c).2
  | COp.opUpdateMetadata a c u, st => (update_certificate_metadata st a c u).2
  | COp.opMintBatch i ps, st => (mint_certificates_batch st i ps).2
  | COp.opGetCertificate _, st => st
  | COp.opGetUserCerts _, st => st
  | COp.opGetInstructorCerts _, st => st
  | COp.opGetMetadataHistory _, st => st
  | COp.opIsExpired now c, st => (is_certificate_expired now st c).2
  | COp.opIsValid now c, st => (is_valid_certificate now st c).2

theorem contractInit_certificates (st : ContractState) (a : Nat) :
    ((contractInit st a).2).certificates = st.certificates := by
  unfold contractInit accessControlInit
  split_ifs with h1
  · rfl
  · cases hA : st.acAdmin <;> simp [hA]

theorem grant_role_certificates (st : ContractState) (u l : Nat) :
    ((grant_role st u l).2).certificates = st.certificates := by
  unfold grant_role
  cases roleLevelFromU32 l <;> rfl

theorem mint_preserves_existing (now : Nat) (st : ContractState)
    (issuer : Nat) (params : MintCertificateParams) (cid : Nat)
    (p : PackedCertificateData) (h : getA st.certificates cid = some p) :
    getA ((mint_certificate now st issuer params).2).certificates cid = some p := by
  unfold mint_certificate
  cases hr : require_permission st issuer Permission.IssueCertificate with
  | error e => simp [hr, h]
  | ok u =>
    cases hv : validate_mint_params now params with
    | error e => simp [hv, h]
    | ok u2 =>
      simp only [hv]
      by_cases hex : (getA st.certificates params.certificate_id).isSome
      · simp [hex, h]
      · simp only [hex, if_neg, Bool.false_eq_true, if_false]
        show getA (setA st.certificates params.certificate_id _) cid = some p
        rw [getA_setA]
        have hne : cid ≠ params.certificate_id := by
          intro he
          subst he
          rw [h] at hex
          simp at hex
        rw [if_neg hne]
        exact h

theorem isExpired_state (now : Nat) (st : ContractState) (cid : Nat) :
    (is_certificate_expired now st cid).2 = st := by
  unfold is_certificate_expired
  cases getA st.certificates cid <;> rfl

theorem isValid_state (now : Nat) (st : ContractState) (cid : Nat) :
    (is_valid_certificate now st cid).2 = st := by
  unfold is_valid_certificate
  cases getA st.certificates cid <;> rfl

/-- C1: For every input and every prior state, `revoke_certificate`,
`transfer_certificate`, `update_certificate_metadata` and
`mint_certificates_batch` return `Ok(())` and leave the entire certificate
store (certificate records, ownership indexes, metadata history and every
other stored field) unchanged. -/
theorem c1_placeholder_ops_no_op (st : ContractState) (a b c : Nat)
    (uri : String) (ps : List MintCertificateParams) :
    revoke_certificate st a c = (Except.ok (), st) ∧
    transfer_certificate st a b c = (Except.ok (), st) ∧
    update_certificate_metadata st a c uri = (Except.ok (), st) ∧
    mint_certificates_batch st a ps = (Except.ok (), st) :=
  ⟨rfl, rfl, rfl, rfl⟩

/-- A concrete stored certificate used by the C2 scenario. -/
def c2Packed : PackedCertificateData :=
  { metadata :=
    { course_id := "course-1", student_id := 9, instructor_id := 7,
      issue_date := 0, metadata_uri := "uri", token_id := 1,
      title := "t", description := "d",
      status := CertificateStatus.Active, expiry_date := 50,
      original_expiry_date := 50, renewal_count := 0,
      last_renewed_date := 0 },
    owner := 9, history := [] }

/-- A concrete state in which certificate 1 already exists but address 5
holds no permission. -/
def c2State : ContractState :=
  { initialized := true, admin := some 1, acAdmin := some 1, roles := [],
    perms := [], certificates := [(1, c2Packed)], user_certs := [(9, [1])],
    instructor_certs := [(7, [1])] }

/-- Mint parameters that collide with the stored certificate 1. -/
def c2Params : MintCertificateParams :=
  { certificate_id := 1, course_id := "course-1", student := 9,
    title := "t", description := "d", metadata_uri := "uri",
    expiry_date := 60 }

/-- C2 counterexample: in a state where `params.certificate_id` already
exists but the issuer holds no `IssueCertificate` permission,
`mint_certificate` returns `Unauthorized`, not `CertificateAlreadyExists`:
the permission check (and metadata validation) run before the duplicate
check in `lib_backup.rs`. -/
theorem c2_counterexample :
    (getA c2State.certificates c2Params.certificate_id).isSome = true ∧
    mint_certificate 0 c2State 5 c2Params =
      (Except.error CertificateError.Unauthorized, c2State) ∧
    (Except.error CertificateError.Unauthorized :
      Except CertificateError Unit) ≠
      Except.error CertificateError.CertificateAlreadyExists := by
  refine ⟨rfl, rfl, ?_⟩
  intro h
  simp at h

/-- C2 (amended): in every state where a certificate with
`params.certificate_id` already exists, `mint_certificate` leaves the store
unchanged, and — provided the issuer holds the `IssueCertificate`
permission and the parameters pass metadata validation, the checks that
run first — it returns `CertificateAlreadyExists`. -/
theorem c2_mint_existing_rejected (now : Nat) (st : ContractState)
    (issuer : Nat) (params : MintCertificateParams)
    (p : PackedCertificateData)
    (hex : getA st.certificates params.certificate_id = some p) :
    (mint_certificate now st issuer params).2 = st ∧
    (Permission.IssueCertificate ∈ ((getA st.perms issuer).getD []) →
      now ≤ params.expiry_date →
      mint_certificate now st issuer params =
        (Except.error CertificateError.CertificateAlreadyExists, st)) := by
  have hsome : (getA st.certificates params.certificate_id).isSome = true := by
    rw [hex]
    rfl
  constructor
  · unfold mint_certificate
    cases hr : require_permission st issuer Permission.IssueCertificate with
    | error e => rfl
    | ok u =>
      cases hv : validate_mint_params now params with
      | error e => rfl
      | ok u2 => simp [hv, hsome]
  · intro hp hv
    unfold mint_certificate
    rw [show require_permission st issuer Permission.IssueCertificate =
          Except.ok () from by simp [require_permission, hp]]
    rw [show validate_mint_params now params = Except.ok () from by
          simp [validate_mint_params, hv]]
    simp [hsome]

/-- C3: every public operation of the certificate contract preserves every
stored record exactly; in particular `original_expiry_date` never changes
after creation, `renewal_count` never decreases, and a record whose status
is `Revoked` or `Expired` is never mutated again. -/
theorem c3_record_invariants_preserved (op : COp) (st : ContractState)
    (cid : Nat) (p : PackedCertificateData)
    (h : getA st.certificates cid = some p) :
    ∃ p', getA (applyCOp op st).certificates cid = some p' ∧
      p'.metadata.original_expiry_date = p.metadata.original_expiry_date ∧
      p.metadata.renewal_count ≤ p'.metadata.renewal_count ∧
      ((p.metadata.status = CertificateStatus.Revoked ∨
        p.metadata.status = CertificateStatus.Expired) → p' = p) := by
  have hpres : getA (applyCOp op st).certificates cid = some p := by
    cases op with
    | opInit a =>
        show getA ((contractInit st a).2).certificates cid = some p
        rw [contractInit_certificates]
        exact h
    | opGetAdmin => exact h
    | opGrantRole u l =>
        show getA ((grant_role st u l).2).certificates cid = some p
        rw [grant_role_certificates]
        exact h
    | opRevokeRole u => exact h
    | opMint now i params => exact mint_preserves_existing now st i params cid p h
    | opRevoke a c => exact h
    | opTransfer a b c => exact h
    | opUpdateMetadata a c u => exact h
    | opMintBatch i ps => exact h
    | opGetCertificate c => exact h
    | opGetUserCerts u => exact h
    | opGetInstructorCerts u => exact h
    | opGetMetadataHistory c => exact h
    | opIsExpired now c =>
        show getA ((is_certificate_expired now st c).2).certificates cid = some p
        rw [isExpired_state]
        exact h
    | opIsValid now c =>
        show getA ((is_valid_certificate now st c).2).certificates cid = some p
        rw [isValid_state]
        exact h
  exact ⟨p, hpres, rfl, le_refl _, fun _ => rfl⟩

/-- C4: a multisig request reaches `Executed` iff it previously reached
`Approved` (with at least threshold-many distinct signers signed) and
`execute` was called no later than the request's deadline; and a second
`execute` on an `Executed` request fails with `AlreadyExecuted` and changes
nothing. -/
theorem c4_request_executed_iff (r0 : MultiSigCertificateRequest)
    (h0 : msProposed r0) (tr : List MsEvent) :
    ((msRun tr r0).status = RequestStatus.Executed ↔
      ∃ pre n post, tr = pre ++ MsEvent.exec n :: post ∧
        (msRun pre r0).status = RequestStatus.Approved ∧
        r0.threshold ≤ (msRun pre r0).signed_by.length ∧
        (msRun pre r0).signed_by.Nodup ∧
        n ≤ r0.deadline) ∧
    (∀ n r, r.status = RequestStatus.Executed →
      msExecute n r = (Except.error CertificateError.AlreadyExecuted, r)) := by
  obtain ⟨hp, hsb⟩ := h0
  constructor
  · have hne : r0.status ≠ RequestStatus.Executed := by
      rw [hp]
      simp
    have hinv0 : msInv r0 := by
      refine ⟨by rw [hsb]; exact List.nodup_nil, ?_⟩
      rintro (hc | hc) <;> rw [hp] at hc <;> simp at hc
    rw [msRun_executed_iff tr r0 hne]
    constructor
    · rintro ⟨pre, n, post, htr, happ, hd⟩
      have hinv := msRun_inv pre r0 hinv0
      refine ⟨pre, n, post, htr, happ, ?_, hinv.1, ?_⟩
      · have hth := hinv.2 (Or.inl happ)
        rw [msRun_threshold pre r0] at hth
        exact hth
      · rw [msRun_deadline pre r0] at hd
        exact hd
    · rintro ⟨pre, n, post, htr, happ, hth, hnd, hdl⟩
      refine ⟨pre, n, post, htr, happ, ?_⟩
      rw [msRun_deadline pre r0]
      exact hdl
  · intro n r hr
    obtain ⟨id, pr, sb, status, ca, dl, th, el⟩ := r
    simp only [] at hr
    subst hr
    rfl

/-- C4 witness: a 2-of-3 request signed by signers 1 and 2 and executed at
time 30 (before the deadline 100) ends `Executed`, and the characterization
theorem applies to it. -/
theorem c4_request_executed_iff_witness :
    ((msRun [MsEvent.sgn 10 1, MsEvent.sgn 20 2, MsEvent.exec 30]
        { request_id := 1, proposer := 4, signed_by := [],
          status := RequestStatus.Pending, created_at := 0, deadline := 100,
          threshold := 2, eligible := [1, 2, 3] }).status =
        RequestStatus.Executed ↔
      ∃ pre n post,
        [MsEvent.sgn 10 1, MsEvent.sgn 20 2, MsEvent.exec 30] =
          pre ++ MsEvent.exec n :: post ∧
        (msRun pre
          { request_id := 1, proposer := 4, signed_by := [],
            status := RequestStatus.Pending, created_at := 0, deadline := 100,
            threshold := 2, eligible := [1, 2, 3] }).status =
          RequestStatus.Approved ∧
        (2 : Nat) ≤ (msRun pre
          { request_id := 1, proposer := 4, signed_by := [],
            status := RequestStatus.Pending, created_at := 0, deadline := 100,
            threshold := 2, eligible := [1, 2, 3] }).signed_by.length ∧
        (msRun pre
          { request_id := 1, proposer := 4, signed_by := [],
            status := RequestStatus.Pending, created_at := 0, deadline := 100,
            threshold := 2, eligible := [1, 2, 3] }).signed_by.Nodup ∧
        n ≤ 100) ∧
    (∀ n r, r.status = RequestStatus.Executed →
      msExecute n r = (Except.error CertificateError.AlreadyExecuted, r)) :=
  c4_request_executed_iff
    { request_id := 1, proposer := 4, signed_by := [],
      status := RequestStatus.Pending, created_at := 0, deadline := 100,
      threshold := 2, eligible := [1, 2, 3] }
    ⟨rfl, rfl⟩
    [MsEvent.sgn 10 1, MsEvent.sgn 20 2, MsEvent.exec 30]

/-- C5: `register_prerequisite` fails with `InvalidPrerequisite` on a
self-loop, and—for a proper edge whose insertion would close a cycle, i.e.
the stored graph already has a path from `required_course` back to
`course`—fails with `CycleDetected` and leaves the stored graph
byte-for-byte unchanged. -/
theorem c5_register_prerequisite_guards (g : PrereqGraph)
    (course required_course : Nat) (mandatory : Bool) :
    (course = required_course →
      register_prerequisite g course required_course mandatory =
        (Except.error CertificateError.InvalidPrerequisite, g)) ∧
    (course ≠ required_course →
      Relation.ReflTransGen (edgeRel g) required_course course →
      register_prerequisite g course required_course mandatory =
        (Except.error CertificateError.CycleDetected, g)) := by
  constructor
  · intro h
    unfold register_prerequisite
    rw [if_pos h]
  · intro hne hpath
    unfold register_prerequisite
    rw [if_neg hne]
    rw [if_pos (reachableB_complete g required_course course hpath)]

/-- C5 witness: with the stored edge 1 → 2, inserting 2 → 1 is rejected
with `CycleDetected` and the graph is unchanged; inserting the self-loop
3 → 3 is rejected with `InvalidPrerequisite`. -/
theorem c5_register_prerequisite_guards_witness :
    register_prerequisite
        [{ course := 1, required_course := 2, mandatory := true }] 2 1 true =
      (Except.error CertificateError.CycleDetected,
        [{ course := 1, required_course := 2, mandatory := true }]) ∧
    register_prerequisite
        [{ course := 1, required_course := 2, mandatory := true }] 3 3 false =
      (Except.error CertificateError.InvalidPrerequisite,
        [{ course := 1, required_course := 2, mandatory := true }]) := by
  constructor
  · refine (c5_register_prerequisite_guards
      [{ course := 1, required_course := 2, mandatory := true }] 2 1 true).2
      (by decide) ?_
    exact Relation.ReflTransGen.single
      (show (2 : Nat) ∈
        succs [{ course := 1, required_course := 2, mandatory := true }] 1 by
          decide)
  · exact (c5_register_prerequisite_guards
      [{ course := 1, required_course := 2, mandatory := true }] 3 3 false).1
      rfl

theorem mint_success_characterization (now : Nat) (st : ContractState)
    (issuer : Nat) (params : MintCertificateParams) (st' : ContractState)
    (h : mint_certificate now st issuer params = (Except.ok (), st')) :
    now ≤ params.expiry_date ∧
    getA st'.certificates params.certificate_id = some
      { metadata :=
        { course_id := params.course_id, student_id := params.student,
          instructor_id := issuer, issue_date := now,
          metadata_uri := params.metadata_uri,
          token_id := params.certificate_id, title := params.title,
          description := params.description,
          status := CertificateStatus.Active,
          expiry_date := params.expiry_date,
          original_expiry_date := params.expiry_date, renewal_count := 0,
          last_renewed_date := 0 },
        owner := params.student, history := [] } ∧
    get_user_certificates st' params.student =
      get_user_certificates st params.student ++ [params.certificate_id] ∧
    get_instructor_certificates st' issuer =
      get_instructor_certificates st issuer ++ [params.certificate_id] := by
  unfold mint_certificate at h
  cases hr : require_permission st issuer Permission.IssueCertificate with
  | error e =>
      simp only [hr] at h
      exact absurd h (by simp)
  | ok u =>
    simp only [hr] at h
    cases hv : validate_mint_params now params with
    | error e =>
        simp only [hv] at h
        exact absurd h (by simp)
    | ok u2 =>
      simp only [hv] at h
      have hle : now ≤ params.expiry_date := by
        by_cases hc : now ≤ params.expiry_date
        · exact hc
        · unfold validate_mint_params at hv
          rw [if_neg hc] at hv
          exact absurd hv (by simp)
      by_cases hex : (getA st.certificates params.certificate_id).isSome = true
      · rw [if_pos hex] at h
        exact absurd h (by simp)
      · rw [if_neg hex] at h
        simp only [Prod.mk.injEq, true_and] at h
        subst h
        refine ⟨hle, ?_, ?_, ?_⟩
        · show getA (setA st.certificates params.certificate_id _)
            params.certificate_id = _
          rw [getA_setA, if_pos rfl]
        · show (getA (setA st.user_certs params.student _)
            params.student).getD [] = _
          rw [getA_setA, if_pos rfl]
          rfl
        · show (getA (setA st.instructor_certs issuer _) issuer).getD [] = _
          rw [getA_setA, if_pos rfl]
          rfl

/-- C6: a successful `mint_certificate` stores a record whose `expiry_date`
is at least its `issue_date` (the ledger timestamp at mint time);
equivalently, the mint fails rather than store a record expiring before
issuance. -/
theorem c6_mint_expiry_ge_issue (now : Nat) (st : ContractState)
    (issuer : Nat) (params : MintCertificateParams) (st' : ContractState)
    (h : mint_certificate now st issuer params = (Except.ok (), st')) :
    ∃ p, getA st'.certificates params.certificate_id = some p ∧
      p.metadata.issue_date ≤ p.metadata.expiry_date := by
  obtain ⟨hle, hcert, -, -⟩ :=
    mint_success_characterization now st issuer params st' h
  exact ⟨_, hcert, hle⟩

/-- A state in which issuer 7 holds the mint permission and nothing is
stored yet. -/
def mintStateW : ContractState :=
  { initialized := true, admin := some 1, acAdmin := some 1,
    roles := [(7, 2)],
    perms := [(7, [Permission.IssueCertificate, Permission.RevokeCertificate,
      Permission.TransferCertificate, Permission.UpdateCertificateMetadata])],
    certificates := [], user_certs := [], instructor_certs := [] }

/-- Concrete mint parameters for the witness scenarios. -/
def mintParamsW : MintCertificateParams :=
  { certificate_id := 42, course_id := "course-9", student := 9,
    title := "T", description := "D", metadata_uri := "U",
    expiry_date := 100 }

/-- C6 witness: the concrete mint at time 5 with expiry 100 succeeds and
the stored record satisfies the invariant. -/
theorem c6_mint_expiry_ge_issue_witness :
    ∃ p, getA ((mint_certificate 5 mintStateW 7 mintParamsW).2).certificates
        mintParamsW.certificate_id = some p ∧
      p.metadata.issue_date ≤ p.metadata.expiry_date :=
  c6_mint_expiry_ge_issue 5 mintStateW 7 mintParamsW
    (mint_certificate 5 mintStateW 7 mintParamsW).2 rfl

/-- C7: the admin identity is set exactly once — `initialize` on an already
initialized state returns `AlreadyInitialized` leaving the state (and so
the stored admin) unchanged; `get_admin` before any successful `initialize`
returns `NotInitialized`; and after a successful `initialize` any further
`initialize` returns `AlreadyInitialized` leaving the state unchanged. -/
theorem c7_initialize_once (st st' : ContractState) (a a' : Nat) :
    (st.initialized = true →
      contractInit st a =
        (Except.error CertificateError.AlreadyInitialized, st)) ∧
    (st.initialized = false →
      get_admin st = Except.error CertificateError.NotInitialized) ∧
    (contractInit st a = (Except.ok (), st') →
      contractInit st' a' =
        (Except.error CertificateError.AlreadyInitialized, st')) := by
  refine ⟨?_, ?_, ?_⟩
  · intro h
    unfold contractInit
    rw [if_pos h]
  · intro h
    unfold get_admin
    rw [if_pos h]
  · intro h
    have hinit : st'.initialized = true := by
      unfold contractInit at h
      by_cases h1 : st.initialized = true
      · rw [if_pos h1] at h
        exact absurd h (by simp)
      · rw [if_neg h1] at h
        cases hA : st.acAdmin with
        | some x =>
            simp only [accessControlInit, hA] at h
            exact absurd h (by simp)
        | none =>
            simp only [accessControlInit, hA, Prod.mk.injEq, true_and] at h
            subst h
            rfl
    unfold contractInit
    rw [if_pos hinit]

/-- C7 witness: a second `initialize` on the already initialized concrete
state is rejected with `AlreadyInitialized` and changes nothing. -/
theorem c7_initialize_once_witness :
    contractInit mintStateW 3 =
      (Except.error CertificateError.AlreadyInitialized, mintStateW) :=
  (c7_initialize_once mintStateW mintStateW 3 3).1 rfl

/-- C8: after a successful `mint_certificate(issuer, params)` the stored
record for `params.certificate_id` has status `Active`, zero renewal
count, zero last-renewal date, expiry and original expiry equal to
`params.expiry_date`, issue date equal to the ledger timestamp, instructor
equal to the issuer, owner equal to `params.student`, an empty
metadata-update history, and the id is appended to the student's and the
issuer's certificate indexes. -/
theorem c8_mint_success_poststate (now : Nat) (st : ContractState)
    (issuer : Nat) (params : MintCertificateParams) (st' : ContractState)
    (h : mint_certificate now st issuer params = (Except.ok (), st')) :
    getA st'.certificates params.certificate_id = some
      { metadata :=
        { course_id := params.course_id, student_id := params.student,
          instructor_id := issuer, issue_date := now,
          metadata_uri := params.metadata_uri,
          token_id := params.certificate_id, title := params.title,
          description := params.description,
          status := CertificateStatus.Active,
          expiry_date := params.expiry_date,
          original_expiry_date := params.expiry_date, renewal_count := 0,
          last_renewed_date := 0 },
        owner := params.student, history := [] } ∧
    get_user_certificates st' params.student =
      get_user_certificates st params.student ++ [params.certificate_id] ∧
    get_instructor_certificates st' issuer =
      get_instructor_certificates st issuer ++ [params.certificate_id] := by
  obtain ⟨-, h1, h2, h3⟩ :=
    mint_success_characterization now st issuer params st' h
  exact ⟨h1, h2, h3⟩

/-- C8 witness: the concrete mint of certificate 42 by issuer 7 for
student 9 produces exactly the expected record and index updates. -/
theorem c8_mint_success_poststate_witness :
    getA ((mint_certificate 5 mintStateW 7 mintParamsW).2).certificates
        mintParamsW.certificate_id = some
      { metadata :=
        { course_id := mintParamsW.course_id,
          student_id := mintParamsW.student, instructor_id := 7,
          issue_date := 5, metadata_uri := mintParamsW.metadata_uri,
          token_id := mintParamsW.certificate_id, title := mintParamsW.title,
          description := mintParamsW.description,
          status := CertificateStatus.Active,
          expiry_date := mintParamsW.expiry_date,
          original_expiry_date := mintParamsW.expiry_date,
          renewal_count := 0, last_renewed_date := 0 },
        owner := mintParamsW.student, history := [] } ∧
    get_user_certificates ((mint_certificate 5 mintStateW 7 mintParamsW).2)
        mintParamsW.student =
      get_user_certificates mintStateW mintParamsW.student ++
        [mintParamsW.certificate_id] ∧
    get_instructor_certificates
        ((mint_certificate 5 mintStateW 7 mintParamsW).2) 7 =
      get_instructor_certificates mintStateW 7 ++
        [mintParamsW.certificate_id] :=
  c8_mint_success_poststate 5 mintStateW 7 mintParamsW
    (mint_certificate 5 mintStateW 7 mintParamsW).2 rfl

/-- C9: `is_valid_certificate` returns true iff a record exists with status
`Active` whose expiry has not passed; it returns false for a missing
record, and the read mutates nothing. -/
theorem c9_is_valid_characterization (now : Nat) (st : ContractState)
    (cid : Nat) :
    ((is_valid_certificate now st cid).1 = true ↔
      ∃ p, getA st.certificates cid = some p ∧
        p.metadata.status = CertificateStatus.Active ∧
        now ≤ p.metadata.expiry_date) ∧
    (getA st.certificates cid = none →
      (is_valid_certificate now st cid).1 = false) ∧
    (is_valid_certificate now st cid).2 = st := by
  refine ⟨?_, ?_, isValid_state now st cid⟩
  · unfold is_valid_certificate
    cases hg : getA st.certificates cid with
    | none => simp
    | some packed => simp [Bool.and_eq_true, decide_eq_true_eq]
  · intro hnone
    unfold is_valid_certificate
    rw [hnone]

/-- C9 witness: on the concrete state holding only the Active certificate 1
expiring at 50, validity at time 10 is characterized as stated. -/
theorem c9_is_valid_characterization_witness :
    ((is_valid_certificate 10 c2State 1).1 = true ↔
      ∃ p, getA c2State.certificates 1 = some p ∧
        p.metadata.status = CertificateStatus.Active ∧
        10 ≤ p.metadata.expiry_date) ∧
    (getA c2State.certificates 1 = none →
      (is_valid_certificate 10 c2State 1).1 = false) ∧
    (is_valid_certificate 10 c2State 1).2 = c2State :=
  c9_is_valid_characterization 10 c2State 1

/-- C10: `is_certificate_expired` returns true iff a record exists and the
current time is strictly past its expiry; for a missing record it returns
false, regardless of time. -/
theorem c10_is_expired_characterization (now : Nat) (st : ContractState)
    (cid : Nat) :
    ((is_certificate_expired now st cid).1 = true ↔
      ∃ p, getA st.certificates cid = some p ∧
        p.metadata.expiry_date < now) ∧
    (getA st.certificates cid = none →
      (is_certificate_expired now st cid).1 = false) := by
  constructor
  · unfold is_certificate_expired
    cases hg : getA st.certificates cid with
    | none => simp
    | some packed => simp [decide_eq_true_eq]
  · intro hnone
    unfold is_certificate_expired
    rw [hnone]

/-- C10 witness: on the concrete state holding only certificate 1 expiring
at 50, expiry at time 60 is characterized as stated. -/
theorem c10_is_expired_characterization_witness :
    ((is_certificate_expired 60 c2State 1).1 = true ↔
      ∃ p, getA c2State.certificates 1 = some p ∧
        p.metadata.expiry_date < 60) ∧
    (getA c2State.certificates 1 = none →
      (is_certificate_expired 60 c2State 1).1 = false) :=
  c10_is_expired_characterization 60 c2State 1

/-- The C2 witness state: certificate 1 exists and issuer 7 holds the mint
permission. -/
def c2StateP : ContractState :=
  { c2State with perms := [(7, [Permission.IssueCertificate])] }

/-- C2 (amended) witness: with issuer 7 holding the permission and valid
parameters colliding with stored certificate 1, the duplicate is rejected
and the store unchanged. -/
theorem c2_mint_existing_rejected_witness :
    (mint_certificate 0 c2StateP 7 c2Params).2 = c2StateP ∧
    (Permission.IssueCertificate ∈ ((getA c2StateP.perms 7).getD []) →
      0 ≤ c2Params.expiry_date →
      mint_certificate 0 c2StateP 7 c2Params =
        (Except.error CertificateError.CertificateAlreadyExists, c2StateP)) :=
  c2_mint_existing_rejected 0 c2StateP 7 c2Params c2Packed rfl

/-- C3 witness: the placeholder transfer leaves the stored record of
certificate 1 with all its invariants intact. -/
theorem c3_record_invariants_preserved_witness :
    ∃ p', getA (applyCOp (COp.opTransfer 1 2 1) c2State).certificates 1 =
        some p' ∧
      p'.metadata.original_expiry_date =
        c2Packed.metadata.original_expiry_date ∧
      c2Packed.metadata.renewal_count ≤ p'.metadata.renewal_count ∧
      ((c2Packed.metadata.status = CertificateStatus.Revoked ∨
        c2Packed.metadata.status = CertificateStatus.Expired) →
        p' = c2Packed) :=
  c3_record_invariants_preserved (COp.opTransfer 1 2 1) c2State 1 c2Packed rfl
